import Mathlib

/-!
Verification of the Binarius installation-and-activation core against its
specification.  Each Go function of the repository that a claim depends on is
shallowly embedded as an executable Lean definition; filesystem and network
effects are made explicit as state passing over abstract file-system maps,
with environment records supplying the outcome of each fallible primitive.
-/

set_option maxRecDepth 4096

/-- Decidable equality for `Except`, needed to evaluate results of the
embedded fallible operations on concrete inputs. -/
instance exceptDecEq {ε α : Type} [DecidableEq ε] [DecidableEq α] : DecidableEq (Except ε α)
  | .ok x, .ok y =>
    if h : x = y then .isTrue (congrArg Except.ok h)
    else .isFalse (fun hc => h (Except.ok.inj hc))
  | .error x, .error y =>
    if h : x = y then .isTrue (congrArg Except.error h)
    else .isFalse (fun hc => h (Except.error.inj hc))
  | .ok _, .error _ => .isFalse (fun hc => Except.noConfusion hc)
  | .error _, .ok _ => .isFalse (fun hc => Except.noConfusion hc)

/-! ## Go path/filepath and strings primitives (Unix rules)

Embeddings of the Go standard-library path helpers the repository calls:
`filepath.Clean`, `filepath.Join`, `filepath.Abs`, `filepath.Dir`,
`strings.HasPrefix`.  Paths are strings; `filepath.Abs` is modelled with the
working directory passed explicitly. -/

/-- Split a character list at every slash (the segment structure that
`strings.Split(path, "/")` produces). -/
def splitOnSlash : List Char → List (List Char)
  | [] => [[]]
  | c :: rest =>
    if c = '/' then [] :: splitOnSlash rest
    else
      match splitOnSlash rest with
      | [] => [[c]]
      | s :: ss => (c :: s) :: ss

/-- Whether a character list starts with a slash (a rooted Unix path). -/
def rootedOf : List Char → Bool
  | '/' :: _ => true
  | _ => false

/-- One step of the lexical `filepath.Clean` loop: empty and `.` segments are
dropped; `..` pops a previous segment when one is available (and it is not
itself `..`), is dropped at the root, and is kept otherwise. -/
def cleanStep (rooted : Bool) (out : List (List Char)) (seg : List Char) : List (List Char) :=
  if seg = [] ∨ seg = ['.'] then out
  else if seg = ['.', '.'] then
    if out ≠ [] ∧ out.getLast? ≠ some ['.', '.'] then out.dropLast
    else if rooted then out
    else out ++ [['.', '.']]
  else out ++ [seg]

/-- Interleave the segments with slashes again. -/
def joinSegs : List (List Char) → List Char
  | [] => []
  | [s] => s
  | s :: rest => s ++ '/' :: joinSegs rest

/-- Go `filepath.Clean` on Unix: lexically shortest equivalent path. -/
def goClean (p : String) : String :=
  if p.data = [] then "."
  else
    let rooted := rootedOf p.data
    let segs := (splitOnSlash p.data).foldl (cleanStep rooted) []
    if segs = [] then (if rooted then "/" else ".")
    else String.mk ((if rooted then ['/'] else []) ++ joinSegs segs)

/-- Go `filepath.IsAbs` on Unix. -/
def goIsAbs (p : String) : Bool := rootedOf p.data

/-- Go `filepath.Join` of two elements on Unix: empty elements are skipped and
the result is Cleaned. -/
def goJoin (a b : String) : String :=
  if a ≠ "" then goClean (String.mk (a.data ++ '/' :: b.data))
  else if b ≠ "" then goClean b
  else ""

/-- Go `filepath.Abs` with the working directory `cwd` made explicit:
absolute paths are Cleaned, relative ones joined onto `cwd`. -/
def goAbs (cwd p : String) : String :=
  if goIsAbs p then goClean p else goJoin cwd p

/-- Go `filepath.Dir` on Unix: everything up to and including the final slash,
Cleaned; `.` when the path holds no slash. -/
def goDir (p : String) : String :=
  let cs := p.data
  let keep := cs.length - (cs.reverse.takeWhile (fun c => c ≠ '/')).length
  goClean (String.mk (cs.take keep))

/-- Go `strings.HasPrefix s pre`, modelled on the character lists of the two
strings. -/
def hasPrefixStr (s pre : String) : Bool := List.isPrefixOf pre.data s.data

/-! ## internal/utils: UserError -/

/-- Embedding of `utils.UserError` (context, reason, action), the structured
error type produced by `utils.NewUserError`. -/
structure UserError where
  context : String
  reason : String
  action : String
  deriving DecidableEq

/-! ## pkg/installer: archive extraction (`ExtractZip`, `ExtractTarGz`)

Archive entries carry a stored name, an entry kind and the content bytes.
Extraction is modelled as the list of file-system actions the Go code
performs; disk I/O itself is assumed to succeed (the claims under study are
about the path-containment check and entry-kind dispatch, not about disk
failures), and `zip.OpenReader` / gzip parse failures are outside this model
since they abort before any entry is visited. -/

/-- Kind of an archive entry: directory, regular file, or anything else
(symbolic link, device, ...).  For zip this reflects the mode bits behind
`FileInfo().IsDir()`; for tar it reflects `Header.Typeflag`. -/
inductive EntryKind
  | dir
  | reg
  | other
  deriving DecidableEq

/-- One archive entry: stored name, kind, content bytes. -/
structure ArchiveEntry where
  name : String
  typ : EntryKind
  content : List Nat
  deriving DecidableEq

/-- A file-system action performed during extraction. -/
inductive FsAction
  | mkdirAll (path : String)
  | writeFile (path : String) (content : List Nat)
  deriving DecidableEq

/-- The escape condition checked by `validateExtractPath`: the absolute form
of the target is neither strictly below the absolute destination directory
(prefix `absDest ++ "/"`) nor equal to it. -/
def escapesDest (cwd destDir targetPath : String) : Bool :=
  let absDestDir := goAbs cwd destDir
  let absTargetPath := goAbs cwd targetPath
  !(hasPrefixStr absTargetPath (absDestDir ++ "/")) && (absTargetPath != absDestDir)

/-- The `UserError` issued by `validateExtractPath` on a traversal attempt. -/
def pathTraversalError (targetPath : String) : UserError :=
  { context := "Path traversal attempt detected"
    reason := "Archive contains unsafe path: " ++ targetPath
    action := "This archive may be malicious. Do not install tools from untrusted sources." }

/-- Embedding of `installer.validateExtractPath`. -/
def validateExtractPath (cwd destDir targetPath : String) : Except UserError Unit :=
  if escapesDest cwd destDir targetPath then .error (pathTraversalError targetPath)
  else .ok ()

/-- Candidate target path of an entry: `filepath.Join(destDir, name)`. -/
def entryTarget (destDir : String) (e : ArchiveEntry) : String := goJoin destDir e.name

/-- Embedding of `installer.extractZipFile`: validate the target path, then
create a directory for directory entries and write every other entry as a
regular file (the zip branch dispatches only on `IsDir()`). -/
def extractZipFile (cwd destDir : String) (e : ArchiveEntry) : Except UserError (List FsAction) :=
  let targetPath := entryTarget destDir e
  match validateExtractPath cwd destDir targetPath with
  | .error err => .error err
  | .ok _ =>
    if e.typ = EntryKind.dir then .ok [FsAction.mkdirAll targetPath]
    else .ok [FsAction.mkdirAll (goDir targetPath), FsAction.writeFile targetPath e.content]

/-- Embedding of `installer.extractTarFile`: validate the target path, then
dispatch on the tar type flag; directory entries make a directory, regular
entries are written, and every other type is silently skipped. -/
def extractTarFile (cwd destDir : String) (e : ArchiveEntry) : Except UserError (List FsAction) :=
  let targetPath := entryTarget destDir e
  match validateExtractPath cwd destDir targetPath with
  | .error err => .error err
  | .ok _ =>
    match e.typ with
    | EntryKind.dir => .ok [FsAction.mkdirAll targetPath]
    | EntryKind.reg => .ok [FsAction.mkdirAll (goDir targetPath), FsAction.writeFile targetPath e.content]
    | EntryKind.other => .ok []

/-- The per-entry extraction loop shared by `ExtractZip` and `ExtractTarGz`:
entries are processed in order, the actions of successful entries accumulate,
and the first per-entry error aborts the loop. -/
def extractEntries (step : String → String → ArchiveEntry → Except UserError (List FsAction))
    (cwd destDir : String) : List ArchiveEntry → List FsAction × Option UserError
  | [] => ([], none)
  | e :: es =>
    match step cwd destDir e with
    | .error err => ([], some err)
    | .ok acts =>
      let r := extractEntries step cwd destDir es
      (acts ++ r.1, r.2)

/-- Embedding of `installer.ExtractZip`: create the destination directory,
then run the per-entry loop with the zip entry handler. -/
def ExtractZip (cwd destDir : String) (entries : List ArchiveEntry) :
    List FsAction × Option UserError :=
  let r := extractEntries extractZipFile cwd destDir entries
  (FsAction.mkdirAll destDir :: r.1, r.2)

/-- Embedding of `installer.ExtractTarGz`: create the destination directory,
then run the per-entry loop with the tar entry handler. -/
def ExtractTarGz (cwd destDir : String) (entries : List ArchiveEntry) :
    List FsAction × Option UserError :=
  let r := extractEntries extractTarFile cwd destDir entries
  (FsAction.mkdirAll destDir :: r.1, r.2)

/-- Whether an entry escapes the destination directory. -/
def entryEscapes (cwd destDir : String) (e : ArchiveEntry) : Bool :=
  escapesDest cwd destDir (entryTarget destDir e)

/-- Actions of a non-escaping entry under the zip handler. -/
def zipActs (destDir : String) (e : ArchiveEntry) : List FsAction :=
  let targetPath := entryTarget destDir e
  if e.typ = EntryKind.dir then [FsAction.mkdirAll targetPath]
  else [FsAction.mkdirAll (goDir targetPath), FsAction.writeFile targetPath e.content]

/-- Actions of a non-escaping entry under the tar handler. -/
def tarActs (destDir : String) (e : ArchiveEntry) : List FsAction :=
  let targetPath := entryTarget destDir e
  match e.typ with
  | EntryKind.dir => [FsAction.mkdirAll targetPath]
  | EntryKind.reg => [FsAction.mkdirAll (goDir targetPath), FsAction.writeFile targetPath e.content]
  | EntryKind.other => []

/-! ## Extraction lemmas and claims C1, C5 -/

theorem extractZipFile_of_escape {cwd d : String} {e : ArchiveEntry}
    (h : entryEscapes cwd d e = true) :
    extractZipFile cwd d e = .error (pathTraversalError (entryTarget d e)) := by
  have h2 : escapesDest cwd d (entryTarget d e) = true := h
  simp [extractZipFile, validateExtractPath, h2]

theorem extractZipFile_of_safe {cwd d : String} {e : ArchiveEntry}
    (h : entryEscapes cwd d e = false) :
    extractZipFile cwd d e = .ok (zipActs d e) := by
  have h2 : escapesDest cwd d (entryTarget d e) = false := h
  simp only [extractZipFile, validateExtractPath, h2, Bool.false_eq_true, if_false, zipActs]
  split <;> rfl

theorem extractTarFile_of_escape {cwd d : String} {e : ArchiveEntry}
    (h : entryEscapes cwd d e = true) :
    extractTarFile cwd d e = .error (pathTraversalError (entryTarget d e)) := by
  have h2 : escapesDest cwd d (entryTarget d e) = true := h
  simp [extractTarFile, validateExtractPath, h2]

theorem extractTarFile_of_safe {cwd d : String} {e : ArchiveEntry}
    (h : entryEscapes cwd d e = false) :
    extractTarFile cwd d e = .ok (tarActs d e) := by
  have h2 : escapesDest cwd d (entryTarget d e) = false := h
  simp only [extractTarFile, validateExtractPath, h2, Bool.false_eq_true, if_false, tarActs]
  cases e.typ <;> rfl

/-- The per-entry loop, run on a list whose first escaping entry sits at
index `j`, performs exactly the actions of the prefix before `j` and stops
with the path-traversal error of entry `j`. -/
theorem extractEntries_firstFail
    (step : String → String → ArchiveEntry → Except UserError (List FsAction))
    (acts : ArchiveEntry → List FsAction) (cwd d : String)
    (hok : ∀ e, entryEscapes cwd d e = false → step cwd d e = .ok (acts e))
    (herr : ∀ e, entryEscapes cwd d e = true →
      step cwd d e = .error (pathTraversalError (entryTarget d e))) :
    ∀ (es : List ArchiveEntry) (j : Nat) (hj : j < es.length),
      (∀ k (hk : k < j), entryEscapes cwd d es[k] = false) →
      entryEscapes cwd d es[j] = true →
      extractEntries step cwd d es =
        ((es.take j).flatMap acts, some (pathTraversalError (entryTarget d es[j]))) := by
  intro es
  induction es with
  | nil => intro j hj; exact absurd hj (by simp)
  | cons e es ih =>
    intro j hj hpre hesc
    cases j with
    | zero =>
      have he : entryEscapes cwd d e = true := by simpa using hesc
      simp [extractEntries, herr e he]
    | succ j =>
      have he : entryEscapes cwd d e = false := by simpa using hpre 0 (Nat.succ_pos j)
      have hj2 : j < es.length := by simpa [Nat.succ_lt_succ_iff] using hj
      have hpre2 : ∀ k (hk : k < j), entryEscapes cwd d es[k] = false := by
        intro k hk
        simpa using hpre (k + 1) (by omega)
      have hrec := ih j hj2 hpre2 (by simpa using hesc)
      simp [extractEntries, hok e he, hrec]

/-- C1: if any entry of the archive escapes the destination directory (its
candidate target path, resolved to absolute form, is neither the destination
directory nor strictly nested under it), then both zip and gzip-tar
extraction fail with the path-traversal error of the first such entry `j`
(with `j ≤ i`); the actions performed are exactly those of the entries
strictly before `j`, all of which stay inside the destination — so nothing is
written for the offending entry nor for any entry after it. -/
theorem extract_path_traversal_aborts (cwd d : String) (es : List ArchiveEntry)
    (i : Nat) (hi : i < es.length) (hesc : entryEscapes cwd d es[i] = true) :
    ∃ j, ∃ hj : j < es.length, j ≤ i ∧ entryEscapes cwd d es[j] = true ∧
      (∀ k (hk : k < j), entryEscapes cwd d es[k] = false) ∧
      ExtractZip cwd d es =
        (FsAction.mkdirAll d :: (es.take j).flatMap (zipActs d),
         some (pathTraversalError (entryTarget d es[j]))) ∧
      ExtractTarGz cwd d es =
        (FsAction.mkdirAll d :: (es.take j).flatMap (tarActs d),
         some (pathTraversalError (entryTarget d es[j]))) := by
  have hex : ∃ x ∈ es, entryEscapes cwd d x = true :=
    ⟨es[i], List.getElem_mem hi, hesc⟩
  have hj : es.findIdx (fun e => entryEscapes cwd d e) < es.length :=
    List.findIdx_lt_length_of_exists hex
  refine ⟨es.findIdx (fun e => entryEscapes cwd d e), hj, ?_, ?_, ?_, ?_, ?_⟩
  · by_contra hgt
    have hlt : i < es.findIdx (fun e => entryEscapes cwd d e) := by omega
    have := List.not_of_lt_findIdx hlt
    simp [hesc] at this
  · simpa using List.findIdx_getElem (w := hj)
  · intro k hk
    simpa using List.not_of_lt_findIdx hk
  · have := extractEntries_firstFail extractZipFile (zipActs d) cwd d
      (fun e he => extractZipFile_of_safe he) (fun e he => extractZipFile_of_escape he)
      es _ hj (fun k hk => by simpa using List.not_of_lt_findIdx hk)
      (by simpa using List.findIdx_getElem (w := hj))
    simp [ExtractZip, this]
  · have := extractEntries_firstFail extractTarFile (tarActs d) cwd d
      (fun e he => extractTarFile_of_safe he) (fun e he => extractTarFile_of_escape he)
      es _ hj (fun k hk => by simpa using List.not_of_lt_findIdx hk)
      (by simpa using List.findIdx_getElem (w := hj))
    simp [ExtractTarGz, this]

/-- Witness for C1 at a concrete hostile archive: an entry named `../evil`
makes both extractors fail with the traversal error and perform no write. -/
theorem extract_path_traversal_aborts_witness :
    ExtractZip "/w" "/d" [⟨"../evil", EntryKind.reg, [1]⟩] =
      ([FsAction.mkdirAll "/d"], some (pathTraversalError "/evil")) ∧
    ExtractTarGz "/w" "/d" [⟨"../evil", EntryKind.reg, [1]⟩] =
      ([FsAction.mkdirAll "/d"], some (pathTraversalError "/evil")) := by
  obtain ⟨j, hj, hji, hesc2, hpre, hzip, htar⟩ :=
    extract_path_traversal_aborts "/w" "/d" [⟨"../evil", EntryKind.reg, [1]⟩] 0
      (by decide) (by decide)
  have hj0 : j = 0 := Nat.le_zero.mp hji
  subst hj0
  exact ⟨by rw [hzip]; rfl, by rw [htar]; rfl⟩

/-- Counterexample to C5 as stated: in the zip format an entry whose kind is
neither directory nor regular file is NOT skipped — its content is written as
a regular file (the zip branch only distinguishes directories). -/
theorem zip_other_entry_written_counterexample :
    FsAction.writeFile "/dest/link" [7] ∈
      (ExtractZip "/w" "/dest" [⟨"link", EntryKind.other, [7]⟩]).1 ∧
    (ExtractZip "/w" "/dest" [⟨"link", EntryKind.other, [7]⟩]).2 = none := by decide

/-- C5 (amended): gzip-tar extraction silently skips an entry whose kind is
neither directory nor regular file — nothing is written for it, no error is
raised, and subsequent entries are processed unchanged; zip extraction
instead treats every non-directory entry, whatever its kind, as a regular
file and writes its content. -/
theorem tar_skips_other_zip_writes (cwd d : String) (e : ArchiveEntry)
    (es : List ArchiveEntry) (hother : e.typ = EntryKind.other)
    (hsafe : entryEscapes cwd d e = false) :
    ExtractTarGz cwd d (e :: es) = ExtractTarGz cwd d es ∧
    (ExtractZip cwd d (e :: es)).1 =
      FsAction.mkdirAll d :: FsAction.mkdirAll (goDir (entryTarget d e)) ::
        FsAction.writeFile (entryTarget d e) e.content ::
        (extractEntries extractZipFile cwd d es).1 ∧
    (ExtractZip cwd d (e :: es)).2 = (extractEntries extractZipFile cwd d es).2 := by
  refine ⟨?_, ?_, ?_⟩
  · have h1 := extractTarFile_of_safe hsafe
    simp [ExtractTarGz, extractEntries, h1, tarActs, hother]
  · have h1 := extractZipFile_of_safe hsafe
    simp [ExtractZip, extractEntries, h1, zipActs, hother]
  · have h1 := extractZipFile_of_safe hsafe
    simp [ExtractZip, extractEntries, h1]

/-- Witness for the amended C5 at a concrete symlink-like entry. -/
theorem tar_skips_other_zip_writes_witness :
    ExtractTarGz "/w" "/d" [⟨"link", EntryKind.other, [7]⟩] = ExtractTarGz "/w" "/d" [] ∧
    (ExtractZip "/w" "/d" [⟨"link", EntryKind.other, [7]⟩]).1 =
      FsAction.mkdirAll "/d" :: FsAction.mkdirAll (goDir (entryTarget "/d" ⟨"link", EntryKind.other, [7]⟩)) ::
        FsAction.writeFile (entryTarget "/d" ⟨"link", EntryKind.other, [7]⟩) [7] ::
        (extractEntries extractZipFile "/w" "/d" []).1 ∧
    (ExtractZip "/w" "/d" [⟨"link", EntryKind.other, [7]⟩]).2 =
      (extractEntries extractZipFile "/w" "/d" []).2 :=
  tar_skips_other_zip_writes "/w" "/d" ⟨"link", EntryKind.other, [7]⟩ [] (by decide) (by decide)

/-! ## pkg/installer: checksum verification (`VerifyChecksum`)

SHA-256 (FIPS 180-4), as computed by the Go `crypto/sha256` package, embedded
over byte lists (`Nat` values below 256), together with `hex.EncodeToString`,
`strings.ToLower` and `strings.TrimSpace`.  The file under verification is
modelled by its byte content; the open/read step of `VerifyChecksum` is
assumed to succeed (the claim is about digest comparison of bytes on disk).
`strings.ToLower` and `strings.TrimSpace` are modelled on the ASCII range,
which covers every hexadecimal digest string. -/

/-- Truncation to a 32-bit word. -/
def w32 (x : Nat) : Nat := x % 4294967296

/-- Right rotation of a 32-bit word by `n`. -/
def rotr (n x : Nat) : Nat := w32 ((x >>> n) ||| (x <<< (32 - n)))

/-- Bitwise complement of a 32-bit word. -/
def not32 (x : Nat) : Nat := 4294967295 - x

/-- SHA-256 choice function. -/
def shaCh (e f g : Nat) : Nat := (e &&& f) ^^^ (not32 e &&& g)

/-- SHA-256 majority function. -/
def shaMaj (a b c : Nat) : Nat := (a &&& b) ^^^ (a &&& c) ^^^ (b &&& c)

/-- SHA-256 big sigma 0. -/
def bigSigma0 (x : Nat) : Nat := rotr 2 x ^^^ rotr 13 x ^^^ rotr 22 x

/-- SHA-256 big sigma 1. -/
def bigSigma1 (x : Nat) : Nat := rotr 6 x ^^^ rotr 11 x ^^^ rotr 25 x

/-- SHA-256 small sigma 0. -/
def smallSigma0 (x : Nat) : Nat := rotr 7 x ^^^ rotr 18 x ^^^ (x >>> 3)

/-- SHA-256 small sigma 1. -/
def smallSigma1 (x : Nat) : Nat := rotr 17 x ^^^ rotr 19 x ^^^ (x >>> 10)

/-- The 64 SHA-256 round constants. -/
def shaK : List Nat :=
  [1116352408, 1899447441, 3049323471, 3921009573,
   961987163, 1508970993, 2453635748, 2870763221,
   3624381080, 310598401, 607225278, 1426881987,
   1925078388, 2162078206, 2614888103, 3248222580,
   3835390401, 4022224774, 264347078, 604807628,
   770255983, 1249150122, 1555081692, 1996064986,
   2554220882, 2821834349, 2952996808, 3210313671,
   3336571891, 3584528711, 113926993, 338241895,
   666307205, 773529912, 1294757372, 1396182291,
   1695183700, 1986661051, 2177026350, 2456956037,
   2730485921, 2820302411, 3259730800, 3345764771,
   3516065817, 3600352804, 4094571909, 275423344,
   430227734, 506948616, 659060556, 883997877,
   958139571, 1322822218, 1537002063, 1747873779,
   1955562222, 2024104815, 2227730452, 2361852424,
   2428436474, 2756734187, 3204031479, 3329325298]

/-- The SHA-256 initial hash value. -/
def shaH0 : List Nat :=
  [1779033703, 3144134277, 1013904242, 2773480762,
   1359893119, 2600822924, 528734635, 1541459225]

/-- Big-endian byte rendering of `v` on `k` bytes. -/
def beBytes : Nat → Nat → List Nat
  | 0, _ => []
  | k + 1, v => beBytes k (v / 256) ++ [v % 256]

/-- SHA-256 padding: append `0x80`, zero bytes up to 56 mod 64, and the
bit length on 8 big-endian bytes. -/
def padMessage (msg : List Nat) : List Nat :=
  let padZeros := (119 - msg.length % 64) % 64
  msg ++ [128] ++ List.replicate padZeros 0 ++ beBytes 8 (8 * msg.length)

/-- Pack bytes into big-endian 32-bit words. -/
def toWords : List Nat → List Nat
  | b0 :: b1 :: b2 :: b3 :: rest =>
    (b0 * 16777216 + b1 * 65536 + b2 * 256 + b3) :: toWords rest
  | _ => []

/-- Group words into 16-word blocks. -/
def toBlocks : List Nat → List (List Nat)
  | a0 :: a1 :: a2 :: a3 :: a4 :: a5 :: a6 :: a7 ::
    a8 :: a9 :: a10 :: a11 :: a12 :: a13 :: a14 :: a15 :: rest =>
    [a0, a1, a2, a3, a4, a5, a6, a7, a8, a9, a10, a11, a12, a13, a14, a15] :: toBlocks rest
  | _ => []

/-- Extend a 16-word block by `n` further schedule words. -/
def extendSchedule (w : List Nat) : Nat → List Nat
  | 0 => w
  | n + 1 =>
    let prev := extendSchedule w n
    let m := prev.length
    prev ++ [w32 (smallSigma1 (prev.getD (m - 2) 0) + prev.getD (m - 7) 0 +
      smallSigma0 (prev.getD (m - 15) 0) + prev.getD (m - 16) 0)]

/-- One SHA-256 round on the state `[a, b, c, d, e, f, g, h]`. -/
def compressRound (st : List Nat) (kw : Nat × Nat) : List Nat :=
  match st with
  | [a, b, c, d, e, f, g, h] =>
    let t1 := w32 (h + bigSigma1 e + shaCh e f g + kw.1 + kw.2)
    let t2 := w32 (bigSigma0 a + shaMaj a b c)
    [w32 (t1 + t2), a, b, c, w32 (d + t1), e, f, g]
  | st => st

/-- Process one 16-word block into the running hash. -/
def processBlock (h : List Nat) (block : List Nat) : List Nat :=
  let w := extendSchedule block 48
  let st := (shaK.zip w).foldl compressRound h
  List.zipWith (fun x y => w32 (x + y)) h st

/-- SHA-256 of a byte list, as a list of 32 bytes. -/
def sha256 (msg : List Nat) : List Nat :=
  let final := (toBlocks (toWords (padMessage msg))).foldl processBlock shaH0
  final.flatMap (fun w => [w / 16777216 % 256, w / 65536 % 256, w / 256 % 256, w % 256])

/-- Lowercase hexadecimal digit for a value below 16 (Go `hex` digit table). -/
def hexDigit (n : Nat) : Char :=
  if n < 10 then Char.ofNat (48 + n) else Char.ofNat (87 + n)

/-- Go `hex.EncodeToString`: two lowercase hex digits per byte. -/
def hexEncode (bs : List Nat) : String :=
  String.mk (bs.flatMap (fun b => [hexDigit (b / 16), hexDigit (b % 16)]))

/-- ASCII lower-casing of one character (`strings.ToLower` on the ASCII range). -/
def asciiToLower (c : Char) : Char :=
  if 'A' ≤ c ∧ c ≤ 'Z' then Char.ofNat (c.toNat + 32) else c

/-- Go `strings.ToLower`, modelled on the ASCII range. -/
def goToLower (s : String) : String := String.mk (s.data.map asciiToLower)

/-- ASCII whitespace recognizer used by `strings.TrimSpace`. -/
def isSpaceChar (c : Char) : Bool :=
  c = ' ' || c = Char.ofNat 9 || c = Char.ofNat 10 || c = Char.ofNat 11 ||
  c = Char.ofNat 12 || c = Char.ofNat 13

/-- Go `strings.TrimSpace`, modelled on the ASCII range. -/
def goTrimSpace (s : String) : String :=
  String.mk (((s.data.dropWhile isSpaceChar).reverse.dropWhile isSpaceChar).reverse)

/-- The `UserError` issued by `VerifyChecksum` on a digest mismatch; it
carries both the (normalized) expected and the computed digest strings. -/
def checksumMismatchError (expected actual : String) : UserError :=
  { context := "Checksum verification failed"
    reason := "Downloaded file checksum mismatch. Expected: " ++ expected ++ ", Got: " ++ actual
    action := "The downloaded file may be corrupted or tampered with. Please try downloading again." }

/-- Embedding of `installer.VerifyChecksum` on the byte content of the file:
hash the bytes, normalize the expected digest by trimming whitespace and
lower-casing, lower-case the computed digest, and compare. -/
def VerifyChecksum (fileBytes : List Nat) (expectedSHA256 : String) : Except UserError Unit :=
  let actualChecksum := hexEncode (sha256 fileBytes)
  let expected := goToLower (goTrimSpace expectedSHA256)
  let actual := goToLower actualChecksum
  if actual != expected then .error (checksumMismatchError expected actual)
  else .ok ()

theorem asciiToLower_hexDigit (b : Nat) (hb : b < 256) :
    asciiToLower (hexDigit (b / 16)) = hexDigit (b / 16) ∧
    asciiToLower (hexDigit (b % 16)) = hexDigit (b % 16) := by
  revert hb
  revert b
  decide

theorem sha256_bytes_lt (msg : List Nat) : ∀ b ∈ sha256 msg, b < 256 := by
  intro b hb
  simp only [sha256, List.mem_flatMap] at hb
  obtain ⟨w, _, hw⟩ := hb
  simp only [List.mem_cons, List.not_mem_nil, or_false] at hw
  rcases hw with h | h | h | h <;> subst h <;> exact Nat.mod_lt _ (by decide)

theorem map_asciiToLower_hexChars (bs : List Nat) (h : ∀ b ∈ bs, b < 256) :
    (bs.flatMap (fun b => [hexDigit (b / 16), hexDigit (b % 16)])).map asciiToLower =
      bs.flatMap (fun b => [hexDigit (b / 16), hexDigit (b % 16)]) := by
  induction bs with
  | nil => rfl
  | cons b rest ih =>
    have hb := asciiToLower_hexDigit b (h b (by simp))
    simp [List.flatMap_cons, ih (fun x hx => h x (by simp [hx])), hb.1, hb.2]

theorem goToLower_hexEncode (bs : List Nat) (h : ∀ b ∈ bs, b < 256) :
    goToLower (hexEncode bs) = hexEncode bs :=
  congrArg String.mk (map_asciiToLower_hexChars bs h)

/-- C2: checksum verification of a byte sequence succeeds exactly when the
supplied digest string, after trimming surrounding whitespace and
lower-casing, equals the lowercase hexadecimal SHA-256 digest of the bytes;
and whenever it does not succeed, the error carries both the normalized
expected digest and the computed digest. -/
theorem verifyChecksum_iff_digest (bytes : List Nat) (expected : String) :
    (VerifyChecksum bytes expected = .ok () ↔
      goToLower (goTrimSpace expected) = hexEncode (sha256 bytes)) ∧
    (VerifyChecksum bytes expected = .ok () ∨
      VerifyChecksum bytes expected =
        .error (checksumMismatchError (goToLower (goTrimSpace expected))
          (hexEncode (sha256 bytes)))) := by
  have hlower : goToLower (hexEncode (sha256 bytes)) = hexEncode (sha256 bytes) :=
    goToLower_hexEncode _ (sha256_bytes_lt bytes)
  have hunfold : VerifyChecksum bytes expected =
      (if hexEncode (sha256 bytes) != goToLower (goTrimSpace expected)
       then .error (checksumMismatchError (goToLower (goTrimSpace expected))
         (hexEncode (sha256 bytes)))
       else .ok ()) := by
    simp only [VerifyChecksum, hlower]
  by_cases h : goToLower (goTrimSpace expected) = hexEncode (sha256 bytes)
  · rw [hunfold, h]
    simp [h]
  · have hb : (hexEncode (sha256 bytes) != goToLower (goTrimSpace expected)) = true := by
      simp only [bne_iff_ne, ne_eq]
      exact fun hc => h hc.symm
    rw [hunfold, hb]
    simp [h]

/-! ## pkg/config: installation registry

`Registry` is a map from tool name to a map from version to `ToolVersion`;
Go maps are represented as association lists (key order is not observable on
a Go map, and the JSON encoder writes map keys in sorted order — an encoding
detail with no bearing on the claims).  `time.Time` is abstracted as an
integer timestamp; its JSON rendering round-trips, and the `omitempty` tag on
`installed_at` never fires since struct values are not empty in Go, so the
field is always emitted.  The registry file content is a parsed JSON document
or the marker `malformed` for bytes that fail JSON parsing. -/

/-- First-match lookup in an association list (Go map indexing). -/
def mapLookup {α : Type} : List (String × α) → String → Option α
  | [], _ => none
  | (k, v) :: rest, key => if k = key then some v else mapLookup rest key

/-- Insert-or-overwrite in an association list (Go map assignment). -/
def mapInsert {α : Type} : List (String × α) → String → α → List (String × α)
  | [], key, v => [(key, v)]
  | (k, w) :: rest, key, v =>
    if k = key then (k, v) :: rest else (k, w) :: mapInsert rest key v

/-- Key removal in an association list (Go `delete`). -/
def mapDelete {α : Type} : List (String × α) → String → List (String × α)
  | [], _ => []
  | (k, w) :: rest, key => if k = key then rest else (k, w) :: mapDelete rest key

/-- Embedding of `config.ToolVersion`; `installedAt` abstracts `time.Time`
as a timestamp. -/
structure ToolVersion where
  toolName : String
  version : String
  binaryPath : String
  installedAt : Int
  sizeBytes : Int
  sourceURL : String
  checksum : String
  architecture : String
  status : String
  deriving DecidableEq

/-- Embedding of `config.Registry`: tool name, then version, then metadata. -/
structure Registry where
  tools : List (String × List (String × ToolVersion))
  deriving DecidableEq

/-- Embedding of `config.NewRegistry`. -/
def NewRegistry : Registry := ⟨[]⟩

/-- A JSON document (the fragment the registry serialization uses). -/
inductive Json where
  | str (s : String)
  | num (n : Int)
  | obj (fields : List (String × Json))

/-- A string field with the `omitempty` JSON tag: omitted when empty. -/
def optStrField (name val : String) : List (String × Json) :=
  if val = "" then [] else [(name, Json.str val)]

/-- An integer field with the `omitempty` JSON tag: omitted when zero. -/
def optIntField (name : String) (val : Int) : List (String × Json) :=
  if val = 0 then [] else [(name, Json.num val)]

/-- JSON encoding of a `ToolVersion` with the struct tags of the Go type:
every field but `binary_path` and `installed_at` carries `omitempty`. -/
def marshalToolVersion (tv : ToolVersion) : Json :=
  Json.obj (optStrField "tool_name" tv.toolName ++ optStrField "version" tv.version ++
    [("binary_path", Json.str tv.binaryPath)] ++ [("installed_at", Json.num tv.installedAt)] ++
    optIntField "size_bytes" tv.sizeBytes ++ optStrField "source_url" tv.sourceURL ++
    optStrField "checksum" tv.checksum ++ optStrField "architecture" tv.architecture ++
    optStrField "status" tv.status)

/-- Decode a string field: missing means the zero value, wrong type errors. -/
def decodeStrField (fields : List (String × Json)) (name : String) : Except String String :=
  match mapLookup fields name with
  | none => .ok ""
  | some (Json.str s) => .ok s
  | some _ => .error ("field " ++ name ++ " has wrong type")

/-- Decode an integer field: missing means the zero value, wrong type errors. -/
def decodeIntField (fields : List (String × Json)) (name : String) : Except String Int :=
  match mapLookup fields name with
  | none => .ok 0
  | some (Json.num n) => .ok n
  | some _ => .error ("field " ++ name ++ " has wrong type")

/-- JSON decoding of a `ToolVersion` (Go `json.Unmarshal` into the struct). -/
def unmarshalToolVersion : Json → Except String ToolVersion
  | Json.obj fields => do
    let toolName ← decodeStrField fields "tool_name"
    let version ← decodeStrField fields "version"
    let binaryPath ← decodeStrField fields "binary_path"
    let installedAt ← decodeIntField fields "installed_at"
    let sizeBytes ← decodeIntField fields "size_bytes"
    let sourceURL ← decodeStrField fields "source_url"
    let checksum ← decodeStrField fields "checksum"
    let architecture ← decodeStrField fields "architecture"
    let status ← decodeStrField fields "status"
    .ok ⟨toolName, version, binaryPath, installedAt, sizeBytes, sourceURL, checksum, architecture, status⟩
  | _ => .error "tool version entry is not an object"

/-- JSON encoding of one tool entry (version to metadata map). -/
def marshalInner (inner : List (String × ToolVersion)) : Json :=
  Json.obj (inner.map (fun p => (p.1, marshalToolVersion p.2)))

/-- Decode the fields of a JSON object pairwise, in field order (the loop
`json.Unmarshal` runs to fill a Go map). -/
def decodePairs {α : Type} (dec : Json → Except String α) :
    List (String × Json) → Except String (List (String × α))
  | [] => .ok []
  | (k, j) :: rest => do
    let v ← dec j
    let vs ← decodePairs dec rest
    .ok ((k, v) :: vs)

/-- JSON decoding of one tool entry. -/
def unmarshalInner : Json → Except String (List (String × ToolVersion))
  | Json.obj fields => decodePairs unmarshalToolVersion fields
  | _ => .error "tool entry is not an object"

/-- JSON encoding of a `Registry` with the `tools,omitempty` struct tag: an
empty tool map is omitted entirely. -/
def marshalRegistry (r : Registry) : Json :=
  if r.tools = [] then Json.obj []
  else Json.obj [("tools", Json.obj (r.tools.map (fun p => (p.1, marshalInner p.2))))]

/-- JSON decoding of a `Registry`: a missing `tools` field yields a nil map,
which `LoadRegistry` initializes to the empty map. -/
def unmarshalRegistry : Json → Except String Registry
  | Json.obj fields =>
    match mapLookup fields "tools" with
    | none => .ok ⟨[]⟩
    | some (Json.obj tfields) => do
      let tools ← decodePairs unmarshalInner tfields
      pure ⟨tools⟩
    | some _ => .error "field tools has wrong type"
  | _ => .error "registry document is not an object"

/-- Content of the registry file: a parsed JSON document, or bytes that fail
JSON parsing. -/
inductive RegFile
  | json (j : Json)
  | malformed

/-- The file system seen by the registry: path to optional file content. -/
def RegFS : Type := String → Option RegFile

/-- Embedding of `config.LoadRegistry`: an absent file yields the empty
registry with no error; unparseable or ill-typed content is an error. -/
def LoadRegistry (fs : RegFS) (path : String) : Except String Registry :=
  match fs path with
  | none => .ok NewRegistry
  | some RegFile.malformed => .error ("failed to parse registry file " ++ path)
  | some (RegFile.json j) =>
    match unmarshalRegistry j with
    | .error e => .error ("failed to parse registry file " ++ path ++ ": " ++ e)
    | .ok r => .ok r

/-- Embedding of `config.SaveRegistry` in the success case: serialize, write
a temporary file beside the destination, then rename it over the
destination. -/
def SaveRegistry (fs : RegFS) (registry : Registry) (path : String) : RegFS :=
  let data := marshalRegistry registry
  let tmpPath := path ++ ".tmp"
  let fs1 : RegFS := fun p => if p = tmpPath then some (RegFile.json data) else fs p
  fun p => if p = path then some (RegFile.json data)
           else if p = tmpPath then none
           else fs1 p

/-- Embedding of `Registry.AddVersion`: create the inner map when the tool is
new, then insert or overwrite the version entry. -/
def AddVersion (r : Registry) (toolName version : String) (tv : ToolVersion) : Registry :=
  match mapLookup r.tools toolName with
  | none => ⟨mapInsert r.tools toolName [(version, tv)]⟩
  | some inner => ⟨mapInsert r.tools toolName (mapInsert inner version tv)⟩

/-- Embedding of `Registry.RemoveVersion`: delete the version from the inner
map and drop the tool entry when no versions remain. -/
def RemoveVersion (r : Registry) (toolName version : String) : Registry :=
  match mapLookup r.tools toolName with
  | none => r
  | some inner =>
    let inner2 := mapDelete inner version
    if inner2 = [] then ⟨mapDelete r.tools toolName⟩
    else ⟨mapInsert r.tools toolName inner2⟩

/-- Embedding of `Registry.HasVersion` (and its alias `IsInstalled`). -/
def HasVersion (r : Registry) (toolName version : String) : Bool :=
  match mapLookup r.tools toolName with
  | none => false
  | some inner => (mapLookup inner version).isSome

/-! ## Registry lemmas and claims C3, C7, C8 -/

set_option maxHeartbeats 3000000 in
theorem unmarshal_marshal_toolVersion (tv : ToolVersion) :
    unmarshalToolVersion (marshalToolVersion tv) = .ok tv := by
  rcases tv with ⟨tn, vr, bp, ia, sb, su, ck, ar, st⟩
  simp only [marshalToolVersion, unmarshalToolVersion, optStrField, optIntField]
  by_cases h1 : tn = "" <;> by_cases h2 : vr = "" <;> by_cases h3 : sb = 0 <;>
    by_cases h4 : su = "" <;> by_cases h5 : ck = "" <;> by_cases h6 : ar = "" <;>
    by_cases h7 : st = "" <;>
    simp [h1, h2, h3, h4, h5, h6, h7, decodeStrField, decodeIntField, mapLookup,
      bind, Except.bind, pure, Except.pure]

theorem decodePairs_marshal {β : Type} (enc : β → Json) (dec : Json → Except String β)
    (hone : ∀ b, dec (enc b) = .ok b) (l : List (String × β)) :
    decodePairs dec (l.map (fun p => (p.1, enc p.2))) = .ok l := by
  induction l with
  | nil => rfl
  | cons p rest ih =>
    rcases p with ⟨k, b⟩
    simp [decodePairs, hone, ih, bind, Except.bind]

theorem unmarshal_marshal_registry (r : Registry) :
    unmarshalRegistry (marshalRegistry r) = .ok r := by
  rcases r with ⟨tools⟩
  by_cases h : tools = []
  · subst h
    rfl
  · simp only [marshalRegistry, h, if_false, unmarshalRegistry, mapLookup, if_pos rfl]
    simp [decodePairs_marshal marshalInner unmarshalInner
      (fun inner => by
        simp [marshalInner, unmarshalInner,
          decodePairs_marshal marshalToolVersion unmarshalToolVersion
            unmarshal_marshal_toolVersion inner]) tools,
      bind, Except.bind, pure, Except.pure]

/-- C3: saving a registry to a path and loading from that path returns the
registry unchanged; loading from a path with no file yields the empty
registry without error; loading a file that fails to parse is an error. -/
theorem registry_save_load_roundtrip (fs : RegFS) (r : Registry) (path : String) :
    LoadRegistry (SaveRegistry fs r path) path = .ok r ∧
    (fs path = none → LoadRegistry fs path = .ok NewRegistry) ∧
    (fs path = some RegFile.malformed →
      LoadRegistry fs path = .error ("failed to parse registry file " ++ path)) := by
  refine ⟨?_, ?_, ?_⟩
  · have hat : SaveRegistry fs r path path = some (RegFile.json (marshalRegistry r)) := by
      simp [SaveRegistry]
    simp [LoadRegistry, hat, unmarshal_marshal_registry]
  · intro h
    simp [LoadRegistry, h]
  · intro h
    simp [LoadRegistry, h]

/-- Witness for C3 at a concrete registry, file system and path. -/
theorem registry_save_load_roundtrip_witness :
    LoadRegistry (SaveRegistry (fun _ => none)
        ⟨[("terraform", [("v1.6.0", ⟨"terraform", "v1.6.0", "/b", 5, 9, "u", "c", "a", "complete"⟩)])]⟩
        "/reg.json") "/reg.json" =
      .ok ⟨[("terraform", [("v1.6.0", ⟨"terraform", "v1.6.0", "/b", 5, 9, "u", "c", "a", "complete"⟩)])]⟩ ∧
    LoadRegistry (fun _ => none) "/reg.json" = .ok NewRegistry ∧
    LoadRegistry (fun _ => some RegFile.malformed) "/reg.json" =
      .error ("failed to parse registry file " ++ "/reg.json") := by
  obtain ⟨ha, hb, hc⟩ := registry_save_load_roundtrip (fun _ => none)
    ⟨[("terraform", [("v1.6.0", ⟨"terraform", "v1.6.0", "/b", 5, 9, "u", "c", "a", "complete"⟩)])]⟩
    "/reg.json"
  obtain ⟨_, _, hc2⟩ := registry_save_load_roundtrip (fun _ => some RegFile.malformed)
    ⟨[]⟩ "/reg.json"
  exact ⟨ha, hb rfl, hc2 rfl⟩

theorem mapLookup_mapInsert_self {α : Type} (l : List (String × α)) (k : String) (v : α) :
    mapLookup (mapInsert l k v) k = some v := by
  induction l with
  | nil => simp [mapInsert, mapLookup]
  | cons p rest ih =>
    rcases p with ⟨k2, w⟩
    by_cases h : k2 = k <;> simp [mapInsert, mapLookup, h, ih]

theorem mapDelete_mapInsert_of_absent {α : Type} (l : List (String × α)) (k : String) (v : α)
    (h : mapLookup l k = none) : mapDelete (mapInsert l k v) k = l := by
  induction l with
  | nil => simp [mapInsert, mapDelete]
  | cons p rest ih =>
    rcases p with ⟨k2, w⟩
    by_cases hk : k2 = k
    · simp [mapLookup, hk] at h
    · simp only [mapLookup, hk, if_neg, if_false] at h
      simp [mapInsert, mapDelete, hk, ih h]

theorem mapInsert_mapInsert {α : Type} (l : List (String × α)) (k : String) (x y : α) :
    mapInsert (mapInsert l k x) k y = mapInsert l k y := by
  induction l with
  | nil => simp [mapInsert]
  | cons p rest ih =>
    rcases p with ⟨k2, w⟩
    by_cases hk : k2 = k <;> simp [mapInsert, hk, ih]

theorem mapInsert_self_of_lookup {α : Type} (l : List (String × α)) (k : String) (v : α)
    (h : mapLookup l k = some v) : mapInsert l k v = l := by
  induction l with
  | nil => simp [mapLookup] at h
  | cons p rest ih =>
    rcases p with ⟨k2, w⟩
    by_cases hk : k2 = k
    · subst hk
      simp [mapLookup] at h
      simp [mapInsert, h]
    · simp only [mapLookup, hk, if_neg, if_false] at h
      simp [mapInsert, hk, ih h]

/-- Counterexample to C7 as stated: when the version is already registered
for the tool, `AddVersion` overwrites its metadata and the following
`RemoveVersion` deletes the entry, so the prior state (the old metadata) is
not restored. -/
theorem add_remove_not_restoring_counterexample :
    RemoveVersion (AddVersion
        ⟨[("a", [("v1", ⟨"a", "v1", "/old", 1, 1, "", "", "", ""⟩)])]⟩
        "a" "v1" ⟨"a", "v1", "/new", 2, 2, "", "", "", ""⟩) "a" "v1" ≠
      ⟨[("a", [("v1", ⟨"a", "v1", "/old", 1, 1, "", "", "", ""⟩)])]⟩ := by decide

/-- C7 (amended): provided the version is not already registered for the
tool and no tool entry of the registry has zero versions (the registry
invariant of C8), `AddVersion` followed by `RemoveVersion` of the same
tool/version restores the registry exactly, deleting the tool entry entirely
when no versions remain. -/
theorem add_remove_restores (r : Registry) (t v : String) (tv : ToolVersion)
    (habs : HasVersion r t v = false)
    (hwf : ∀ p ∈ r.tools, p.2 ≠ []) :
    RemoveVersion (AddVersion r t v tv) t v = r := by
  rcases r with ⟨tools⟩
  rcases hl : mapLookup tools t with _ | inner
  · simp only [AddVersion, hl, RemoveVersion, mapLookup_mapInsert_self]
    simp only [mapDelete, if_pos rfl]
    simp [mapDelete_mapInsert_of_absent tools t _ hl]
  · have hv : mapLookup inner v = none := by
      simp only [HasVersion, hl] at habs
      rcases h2 : mapLookup inner v with _ | w
      · rfl
      · rw [h2] at habs
        simp at habs
    have hinner : inner ≠ [] := by
      have hmem : (t, inner) ∈ tools := by
        clear hwf habs
        induction tools with
        | nil => simp [mapLookup] at hl
        | cons p rest ih =>
          rcases p with ⟨k2, w⟩
          by_cases hk : k2 = t
          · subst hk
            simp [mapLookup] at hl
            simp [hl]
          · simp only [mapLookup, hk, if_neg, if_false] at hl
            simp [ih hl]
      exact hwf _ hmem
    simp only [AddVersion, hl, RemoveVersion, mapLookup_mapInsert_self]
    rw [mapDelete_mapInsert_of_absent inner v tv hv]
    simp only [hinner, if_neg, if_false]
    congr 1
    rw [mapInsert_mapInsert]
    exact mapInsert_self_of_lookup tools t inner hl

/-- Witness for the amended C7 at a concrete registry. -/
theorem add_remove_restores_witness :
    RemoveVersion (AddVersion
        ⟨[("a", [("v1", ⟨"a", "v1", "/old", 1, 1, "", "", "", ""⟩)])]⟩
        "a" "v2" ⟨"a", "v2", "/new", 2, 2, "", "", "", ""⟩) "a" "v2" =
      ⟨[("a", [("v1", ⟨"a", "v1", "/old", 1, 1, "", "", "", ""⟩)])]⟩ :=
  add_remove_restores _ "a" "v2" _ (by decide) (by decide)

/-- The registry states reachable from the empty registry through the two
in-memory mutating operations. -/
inductive Reachable : Registry → Prop where
  | empty : Reachable NewRegistry
  | add (r : Registry) (t v : String) (tv : ToolVersion) :
      Reachable r → Reachable (AddVersion r t v tv)
  | remove (r : Registry) (t v : String) :
      Reachable r → Reachable (RemoveVersion r t v)

theorem mem_mapInsert {α : Type} (l : List (String × α)) (k : String) (v : α)
    (p : String × α) (hp : p ∈ mapInsert l k v) : p = (k, v) ∨ p ∈ l := by
  induction l with
  | nil =>
    simp only [mapInsert] at hp
    exact Or.inl (by simpa using hp)
  | cons q rest ih =>
    rcases q with ⟨k2, w⟩
    by_cases hk : k2 = k
    · subst hk
      simp only [mapInsert, if_pos rfl] at hp
      rcases List.mem_cons.mp hp with h | h
      · subst h
        exact Or.inl rfl
      · exact Or.inr (List.mem_cons_of_mem _ h)
    · simp only [mapInsert, hk, if_neg, if_false] at hp
      rcases List.mem_cons.mp hp with h | h
      · subst h
        exact Or.inr (List.mem_cons_self _ _)
      · rcases ih h with h2 | h2
        · exact Or.inl h2
        · exact Or.inr (List.mem_cons_of_mem _ h2)

theorem mem_mapDelete {α : Type} (l : List (String × α)) (k : String)
    (p : String × α) (hp : p ∈ mapDelete l k) : p ∈ l := by
  induction l with
  | nil => simp [mapDelete] at hp
  | cons q rest ih =>
    rcases q with ⟨k2, w⟩
    by_cases hk : k2 = k
    · simp only [mapDelete, hk, if_pos rfl] at hp
      exact List.mem_cons_of_mem _ hp
    · simp only [mapDelete, hk, if_neg, if_false] at hp
      rcases List.mem_cons.mp hp with h | h
      · subst h
        exact List.mem_cons_self _ _
      · exact List.mem_cons_of_mem _ (ih h)

theorem mapInsert_ne_nil {α : Type} (l : List (String × α)) (k : String) (v : α) :
    mapInsert l k v ≠ [] := by
  cases l with
  | nil => simp [mapInsert]
  | cons q rest =>
    rcases q with ⟨k2, w⟩
    by_cases hk : k2 = k <;> simp [mapInsert, hk]

/-- C8: in every registry state reachable from the empty registry by
`AddVersion` and `RemoveVersion` operations, every tool entry holds at least
one version. -/
theorem reachable_no_empty_tool (r : Registry) (hr : Reachable r) :
    ∀ p ∈ r.tools, p.2 ≠ [] := by
  induction hr with
  | empty => simp [NewRegistry]
  | add r t v tv _ ih =>
    intro p hp
    rcases hl : mapLookup r.tools t with _ | inner <;>
      simp only [AddVersion, hl] at hp <;>
      rcases mem_mapInsert _ _ _ _ hp with h | h
    · rw [h]
      simp
    · exact ih p h
    · rw [h]
      exact mapInsert_ne_nil _ _ _
    · exact ih p h
  | remove r t v _ ih =>
    intro p hp
    rcases hl : mapLookup r.tools t with _ | inner
    · simp only [RemoveVersion, hl] at hp
      exact ih p hp
    · simp only [RemoveVersion, hl] at hp
      by_cases hd : mapDelete inner v = []
      · simp only [hd, if_pos rfl] at hp
        exact ih p (mem_mapDelete _ _ _ hp)
      · simp only [hd, if_neg, if_false] at hp
        rcases mem_mapInsert _ _ _ _ hp with h | h
        · rw [h]
          exact hd
        · exact ih p h

/-- Witness for C8 at a concrete reachable registry. -/
theorem reachable_no_empty_tool_witness :
    List.all (RemoveVersion (AddVersion (AddVersion NewRegistry "a" "v1"
        ⟨"a", "v1", "/b", 1, 1, "", "", "", ""⟩) "b" "v2"
        ⟨"b", "v2", "/c", 2, 2, "", "", "", ""⟩) "a" "v1").tools
      (fun p => !(p.2.isEmpty)) = true := by
  have h := reachable_no_empty_tool
    (RemoveVersion (AddVersion (AddVersion NewRegistry "a" "v1" (⟨"a", "v1", "/b", 1, 1, "", "", "", ""⟩ : ToolVersion)) "b" "v2" (⟨"b", "v2", "/c", 2, 2, "", "", "", ""⟩ : ToolVersion)) "a" "v1")
    (Reachable.remove (AddVersion (AddVersion NewRegistry "a" "v1" (⟨"a", "v1", "/b", 1, 1, "", "", "", ""⟩ : ToolVersion)) "b" "v2" (⟨"b", "v2", "/c", 2, 2, "", "", "", ""⟩ : ToolVersion)) "a" "v1"
      (Reachable.add (AddVersion NewRegistry "a" "v1" (⟨"a", "v1", "/b", 1, 1, "", "", "", ""⟩ : ToolVersion)) "b" "v2" (⟨"b", "v2", "/c", 2, 2, "", "", "", ""⟩ : ToolVersion)
        (Reachable.add NewRegistry "a" "v1" (⟨"a", "v1", "/b", 1, 1, "", "", "", ""⟩ : ToolVersion) Reachable.empty)))
  rw [List.all_eq_true]
  intro p hp
  simpa [List.isEmpty_iff] using h p hp

/-! ## pkg/symlink: activation link manager

The file system is a map from path to node (regular file or symlink);
directories are left implicit.  `os.Stat` follows symlinks, modelled by
fuel-bounded resolution (Go follows at most 40 links before ELOOP).
`os.CreateTemp` picks a fresh name inside the given directory; the
environment supplies that name together with the success of each fallible
primitive. -/

/-- A file-system node: a regular file or a symbolic link. -/
inductive FsNode
  | file
  | symlink (target : String)
  deriving DecidableEq

/-- The file system seen by the symlink manager. -/
def SymFS : Type := String → Option FsNode

/-- Fuel-bounded symlink resolution, as `os.Stat` performs it. -/
def resolvePath (fs : SymFS) : Nat → String → Option String
  | 0, _ => none
  | fuel + 1, p =>
    match fs p with
    | some FsNode.file => some p
    | some (FsNode.symlink t) => resolvePath fs fuel t
    | none => none

/-- Whether `os.Stat` succeeds on a path (the path resolves to a file). -/
def statOk (fs : SymFS) (p : String) : Bool := (resolvePath fs 40 p).isSome

/-- Failure cases of the symlink manager operations. -/
inductive SymlinkError
  | sourceMissing (source : String)
  | targetExists (target : String)
  | createTempFailed
  | symlinkFailed
  | renameFailed
  deriving DecidableEq

/-- Environment of one `Update` call: the fresh temporary file name chosen by
`os.CreateTemp` and the success of each fallible primitive. -/
structure SymEnv where
  tmpName : String
  createTempOk : Bool
  symlinkOk : Bool
  renameOk : Bool

/-- The temporary path `Update` works with: `os.CreateTemp(filepath.Dir(target), ...)`
places the temporary file inside the directory of `target`. -/
def updateTmpPath (env : SymEnv) (target : String) : String :=
  goDir target ++ "/" ++ env.tmpName

/-- Embedding of `symlink.Manager.Create`: require the source to exist, fail
if anything already sits at the target, then create the symlink. -/
def Create (fs : SymFS) (env : SymEnv) (source target : String) :
    SymFS × Except SymlinkError Unit :=
  if !(statOk fs source) then (fs, .error (SymlinkError.sourceMissing source))
  else if (fs target).isSome then (fs, .error (SymlinkError.targetExists target))
  else if env.symlinkOk then
    ((fun p => if p = target then some (FsNode.symlink source) else fs p), .ok ())
  else (fs, .error SymlinkError.symlinkFailed)

/-- Embedding of `symlink.Manager.Update`: require the source to exist,
create a temporary name in the directory of the target (the file made by
`os.CreateTemp` is closed and removed at once, so it leaves no net change),
create the temporary symlink there, and rename it onto the target; on rename
failure the temporary symlink is removed. -/
def Update (fs : SymFS) (env : SymEnv) (source target : String) :
    SymFS × Except SymlinkError Unit :=
  if !(statOk fs source) then (fs, .error (SymlinkError.sourceMissing source))
  else if !env.createTempOk then (fs, .error SymlinkError.createTempFailed)
  else
    let tmpPath := updateTmpPath env target
    if !env.symlinkOk then (fs, .error SymlinkError.symlinkFailed)
    else
      let fs1 : SymFS := fun p => if p = tmpPath then some (FsNode.symlink source) else fs p
      if env.renameOk then
        ((fun p => if p = target then some (FsNode.symlink source)
                   else if p = tmpPath then none
                   else fs1 p), .ok ())
      else
        ((fun p => if p = tmpPath then none else fs1 p), .error SymlinkError.renameFailed)

/-- C4: after every successful `Update(source, target)` the target is a
symlink whose stored target is exactly `source`; the temporary link lives in
the directory of `target`; and when the final rename fails (every earlier
step having succeeded), an error is returned and the temporary link has been
removed, so no stray file remains. -/
theorem update_postconditions (fs : SymFS) (env : SymEnv) (source target : String) :
    updateTmpPath env target = goDir target ++ "/" ++ env.tmpName ∧
    ((Update fs env source target).2 = .ok () →
      (Update fs env source target).1 target = some (FsNode.symlink source)) ∧
    (statOk fs source = true → env.createTempOk = true → env.symlinkOk = true →
      env.renameOk = false →
      (Update fs env source target).2 = .error SymlinkError.renameFailed ∧
      (Update fs env source target).1 (updateTmpPath env target) = none) := by
  refine ⟨rfl, ?_, ?_⟩
  · intro hok
    by_cases h1 : statOk fs source = true
    · by_cases h2 : env.createTempOk = true
      · by_cases h3 : env.symlinkOk = true
        · by_cases h4 : env.renameOk = true
          · simp [Update, h1, h2, h3, h4]
          · simp [Update, h1, h2, h3, h4] at hok
        · simp [Update, h1, h2, h3] at hok
      · simp [Update, h1, h2] at hok
    · simp [Update, h1] at hok
  · intro h1 h2 h3 h4
    simp [Update, h1, h2, h3, h4]

/-- Witness for C4 at one concrete file system and two environments: one
where everything succeeds and one whose rename fails. -/
theorem update_postconditions_witness :
    (Update (fun p => if p = "/v/bin" then some FsNode.file else none)
        ⟨".binarius-symlink-x", true, true, true⟩ "/v/bin" "/active/tool").1 "/active/tool" =
      some (FsNode.symlink "/v/bin") ∧
    (Update (fun p => if p = "/v/bin" then some FsNode.file else none)
        ⟨".binarius-symlink-x", true, true, false⟩ "/v/bin" "/active/tool").2 =
      .error SymlinkError.renameFailed ∧
    (Update (fun p => if p = "/v/bin" then some FsNode.file else none)
        ⟨".binarius-symlink-x", true, true, false⟩ "/v/bin" "/active/tool").1
      (updateTmpPath ⟨".binarius-symlink-x", true, true, false⟩ "/active/tool") = none := by
  refine ⟨?_, ?_⟩
  · exact (update_postconditions (fun p => if p = "/v/bin" then some FsNode.file else none)
      ⟨".binarius-symlink-x", true, true, true⟩ "/v/bin" "/active/tool").2.1 (by decide)
  · exact (update_postconditions (fun p => if p = "/v/bin" then some FsNode.file else none)
      ⟨".binarius-symlink-x", true, true, false⟩ "/v/bin" "/active/tool").2.2
      (by decide) (by decide) (by decide) (by decide)

/-- C10: when nothing exists at the source path, both `Create` and `Update`
return a source-missing error and leave the file system untouched. -/
theorem create_update_source_missing (fs : SymFS) (env : SymEnv) (source target : String)
    (h : statOk fs source = false) :
    Create fs env source target = (fs, .error (SymlinkError.sourceMissing source)) ∧
    Update fs env source target = (fs, .error (SymlinkError.sourceMissing source)) := by
  constructor <;> simp [Create, Update, h]

/-- Witness for C10 on the empty file system. -/
theorem create_update_source_missing_witness :
    statOk (fun _ => none) "/bin/tool" = false ∧
    Create (fun _ => none) ⟨"t", true, true, true⟩ "/bin/tool" "/active/tool" =
      ((fun _ => none), .error (SymlinkError.sourceMissing "/bin/tool")) ∧
    Update (fun _ => none) ⟨"t", true, true, true⟩ "/bin/tool" "/active/tool" =
      ((fun _ => none), .error (SymlinkError.sourceMissing "/bin/tool")) :=
  ⟨by decide,
   (create_update_source_missing (fun _ => none) ⟨"t", true, true, true⟩
     "/bin/tool" "/active/tool" (by decide)).1,
   (create_update_source_missing (fun _ => none) ⟨"t", true, true, true⟩
     "/bin/tool" "/active/tool" (by decide)).2⟩

/-! ## pkg/installer: download (`Download`)

The file system records which paths hold a file.  The environment supplies
the outcome of the HTTP GET (connection success and status code) and of each
file-system primitive. -/

/-- The file system seen by the downloader: which paths hold a file. -/
def DlFS : Type := String → Bool

/-- Environment of one `Download` call. -/
structure DlEnv where
  getOk : Bool
  statusCode : Nat
  mkdirOk : Bool
  createOk : Bool
  copyOk : Bool
  closeOk : Bool

/-- Failure cases of `Download`. -/
inductive DlError
  | connectionFailed (url : String)
  | httpStatus (url : String) (code : Nat)
  | mkdirFailed (dir : String)
  | createFailed (path : String)
  | copyInterrupted
  | closeFailed
  deriving DecidableEq

/-- Embedding of `installer.Download`: GET the URL, fail on a connection
error or a status other than 200 before touching the file system, create the
destination directory and file, stream the body, and on a copy failure
remove the partially written destination before returning the error. -/
def Download (fs : DlFS) (env : DlEnv) (url destPath : String) :
    DlFS × Except DlError Unit :=
  if !env.getOk then (fs, .error (DlError.connectionFailed url))
  else if env.statusCode ≠ 200 then (fs, .error (DlError.httpStatus url env.statusCode))
  else if !env.mkdirOk then (fs, .error (DlError.mkdirFailed (goDir destPath)))
  else if !env.createOk then (fs, .error (DlError.createFailed destPath))
  else
    let fs1 : DlFS := fun p => p = destPath || fs p
    if !env.copyOk then
      ((fun p => p ≠ destPath && fs1 p), .error DlError.copyInterrupted)
    else if !env.closeOk then (fs1, .error DlError.closeFailed)
    else (fs1, .ok ())

/-- C6: a response with a status code other than 200 makes `Download` fail
with that code surfaced in the error and leaves the file system unchanged
(no destination file is created); and when writing fails mid-transfer, the
partially written destination file is deleted before the error is
returned. -/
theorem download_status_and_cleanup (fs : DlFS) (env : DlEnv) (url destPath : String) :
    (env.getOk = true → env.statusCode ≠ 200 →
      Download fs env url destPath = (fs, .error (DlError.httpStatus url env.statusCode))) ∧
    (env.getOk = true → env.statusCode = 200 → env.mkdirOk = true → env.createOk = true →
      env.copyOk = false →
      (Download fs env url destPath).1 destPath = false ∧
      (Download fs env url destPath).2 = .error DlError.copyInterrupted) := by
  constructor
  · intro h1 h2
    simp [Download, h1, h2]
  · intro h1 h2 h3 h4 h5
    simp [Download, h1, h2, h3, h4, h5]

/-- Witness for C6 with a 404 response and with an interrupted transfer. -/
theorem download_status_and_cleanup_witness :
    Download (fun _ => false) ⟨true, 404, true, true, true, true⟩ "https://u" "/cache/f" =
      ((fun _ => false), .error (DlError.httpStatus "https://u" 404)) ∧
    (Download (fun _ => false) ⟨true, 200, true, true, false, true⟩ "https://u" "/cache/f").1
      "/cache/f" = false ∧
    (Download (fun _ => false) ⟨true, 200, true, true, false, true⟩ "https://u" "/cache/f").2 =
      .error DlError.copyInterrupted := by
  refine ⟨?_, ?_⟩
  · exact (download_status_and_cleanup (fun _ => false) ⟨true, 404, true, true, true, true⟩
      "https://u" "/cache/f").1 rfl (by decide)
  · exact (download_status_and_cleanup (fun _ => false) ⟨true, 200, true, true, false, true⟩
      "https://u" "/cache/f").2 rfl rfl rfl rfl rfl

/-! ## internal/utils: version validation and normalization

The Go regular expression `^v?{digits}.{digits}.{digits}(-[a-zA-Z0-9.-]+)?$`
is embedded as a deterministic parser: after each maximal digit run the next
required character is a dot, a hyphen or the end of input — never a digit —
so greedy matching with no backtracking recognizes the same language; and a
leading `v` can serve the optional `v?` only, since the first number cannot
start with `v`. -/

/-- Consume a nonempty maximal digit run, returning the rest. -/
def parseDigits (cs : List Char) : Option (List Char) :=
  let ds := cs.takeWhile Char.isDigit
  if ds.isEmpty then none else some (cs.drop ds.length)

/-- Consume one dot. -/
def expectDot : List Char → Option (List Char)
  | '.' :: rest => some rest
  | _ => none

/-- The character class `[a-zA-Z0-9.-]` of the pre-release suffix. -/
def isSuffixChar (c : Char) : Bool :=
  c.isAlpha || c.isDigit || c = '.' || c = '-'

/-- The optional pre-release suffix `(-[a-zA-Z0-9.-]+)?` followed by the end
of input. -/
def matchSuffix : List Char → Bool
  | [] => true
  | '-' :: rest => !rest.isEmpty && rest.all isSuffixChar
  | _ => false

/-- The body after the optional leading `v`: three dot-separated numbers and
the optional suffix. -/
def matchCore (cs : List Char) : Bool :=
  match parseDigits cs with
  | none => false
  | some r1 =>
    match expectDot r1 with
    | none => false
    | some r2 =>
      match parseDigits r2 with
      | none => false
      | some r3 =>
        match expectDot r3 with
        | none => false
        | some r4 =>
          match parseDigits r4 with
          | none => false
          | some r5 => matchSuffix r5

/-- Embedding of the anchored match of `utils.versionRegex`. -/
def versionRegexMatches (s : String) : Bool :=
  match s.data with
  | [] => matchCore []
  | c :: rest => if c = 'v' then matchCore rest else matchCore (c :: rest)

/-- Embedding of `utils.ValidateVersion`. -/
def ValidateVersion (version : String) : Except String Unit :=
  if version = "" then .error "version cannot be empty"
  else if !(versionRegexMatches version) then
    .error ("invalid version " ++ version ++
      ": must follow semantic versioning (e.g., v1.6.0, 1.6.0-beta1)")
  else .ok ()

/-- Embedding of `utils.NormalizeVersion`: validate, then prepend `v` when
the prefix is absent. -/
def NormalizeVersion (version : String) : Except String String :=
  match ValidateVersion version with
  | .error e => .error e
  | .ok _ =>
    if !(hasPrefixStr version "v") then .ok ("v" ++ version)
    else .ok version

theorem versionRegexMatches_of_not_v {s : String} (hp : hasPrefixStr s "v" = false) :
    versionRegexMatches s = matchCore s.data := by
  rcases s with ⟨cs⟩
  cases cs with
  | nil => rfl
  | cons c rest =>
    by_cases hc : c = 'v'
    · subst hc
      simp [hasPrefixStr, List.isPrefixOf] at hp
    · simp [versionRegexMatches, hc]

theorem versionRegexMatches_v_append {s : String} :
    versionRegexMatches ("v" ++ s) = matchCore s.data := by
  have hd : ("v" ++ s).data = 'v' :: s.data := by
    simp [String.data_append]
  simp [versionRegexMatches, hd]

theorem v_append_ne_empty (s : String) : ("v" ++ s) ≠ "" := by
  intro h
  have hd : ("v" ++ s).data = 'v' :: s.data := by
    simp [String.data_append]
  rw [h] at hd
  exact List.cons_ne_nil _ _ hd.symm

theorem hasPrefixStr_v_append (s : String) : hasPrefixStr ("v" ++ s) "v" = true := by
  have hd : ("v" ++ s).data = 'v' :: s.data := by
    simp [String.data_append]
  simp [hasPrefixStr, hd, List.isPrefixOf]

/-- C9: on every version string accepted by validation, `NormalizeVersion`
succeeds and returns the string unchanged when it already starts with `v`
and with `v` prepended otherwise; normalization is idempotent (normalizing
its own output returns it unchanged); and on every string rejected by
validation, `NormalizeVersion` propagates the validation error. -/
theorem normalizeVersion_spec (s : String) :
    (ValidateVersion s = .ok () →
      NormalizeVersion s = .ok (if hasPrefixStr s "v" then s else "v" ++ s) ∧
      (∀ r, NormalizeVersion s = .ok r → NormalizeVersion r = .ok r)) ∧
    (∀ e, ValidateVersion s = .error e → NormalizeVersion s = .error e) := by
  constructor
  · intro hval
    have hnorm : NormalizeVersion s = .ok (if hasPrefixStr s "v" then s else "v" ++ s) := by
      by_cases hp : hasPrefixStr s "v" = true <;> simp [NormalizeVersion, hval, hp]
    refine ⟨hnorm, ?_⟩
    intro r hr
    rw [hnorm] at hr
    have hr2 : r = if hasPrefixStr s "v" then s else "v" ++ s := (Except.ok.inj hr).symm
    by_cases hp : hasPrefixStr s "v" = true
    · rw [hr2]
      simp only [hp, if_true]
      simp [NormalizeVersion, hval, hp]
    · have hmatch : versionRegexMatches s = true := by
        by_cases he : s = ""
        · subst he
          simp [ValidateVersion] at hval
        · simp only [ValidateVersion, he, if_neg, if_false] at hval
          by_cases hm : versionRegexMatches s = true
          · exact hm
          · simp [hm] at hval
      have hb : hasPrefixStr s "v" = false := by
        simp only [Bool.not_eq_true] at hp
        exact hp
      have hv2 : versionRegexMatches ("v" ++ s) = true := by
        rw [versionRegexMatches_v_append]
        rw [versionRegexMatches_of_not_v hb] at hmatch
        exact hmatch
      have hval2 : ValidateVersion ("v" ++ s) = .ok () := by
        simp [ValidateVersion, v_append_ne_empty s, hv2]
      rw [hr2]
      simp only [hb, Bool.false_eq_true, if_false]
      simp [NormalizeVersion, hval2, hasPrefixStr_v_append]
  · intro e herr
    simp [NormalizeVersion, herr]

/-- Witness for C9: a version without the prefix is normalized by prepending
`v`, the result is a fixed point, and an invalid string propagates the
validation error. -/
theorem normalizeVersion_spec_witness :
    NormalizeVersion "1.6.0" = .ok (if hasPrefixStr "1.6.0" "v" then "1.6.0" else "v" ++ "1.6.0") ∧
    NormalizeVersion ("v" ++ "1.6.0") = .ok ("v" ++ "1.6.0") ∧
    NormalizeVersion "abc" = .error ("invalid version " ++ "abc" ++
      ": must follow semantic versioning (e.g., v1.6.0, 1.6.0-beta1)") :=
  ⟨((normalizeVersion_spec "1.6.0").1 (by decide)).1,
   ((normalizeVersion_spec "1.6.0").1 (by decide)).2 ("v" ++ "1.6.0") (by decide),
   (normalizeVersion_spec "abc").2 _ (by decide)⟩
